import Mathlib

/-!
Verification of the concurrent frame pipeline of the `vision` repository.

The repository has two variants:

* `src/main.py` — a Flask app with a background thread `capture_video` that
  reads webcam frames, runs a YOLO model, annotates the image, and stores
  `frame`/`detections` under a `threading.Lock`; readers are the
  `generate_frames` streaming generator (`/video_feed`) and the
  `get_detections` handler (`/detections`).
* `src/pi_camera.py` — a Flask app with a background thread
  `capture_frames_continuously` storing pre-encoded JPEG bytes into
  `latest_frame_buffer` under `frame_lock`; the reader is the
  `generate_camera_stream` generator.

The development embeds both:

* a sequential model of one capture iteration and of the capture loop
  (`processBoxes`, `capture_loop`, `capture_video`), with the camera, the
  detector and the drawing primitives as black-box parameters, mirroring
  the out-of-scope collaborators of the design;
* a small-step interleaving semantics of the lock-protected shared cell.
  Each thread is a list of primitive actions (lock acquire/release, single
  field stores, a single locked read).  Only `acq` is guarded (it blocks
  while the lock is held); stores and reads are unguarded, so mutual
  exclusion is a *proved* consequence of the programs' lock discipline,
  not an assumption of the semantics.
-/

namespace Vision

/-- One detector output box, as consumed from `result.boxes` in
`src/main.py` lines 127-131: `box.xyxy[0]`, `box.conf[0]`, `box.cls[0]`.
Numeric values are embedded as exact rationals. -/
structure BoxOut where
  x1 : ℚ
  y1 : ℚ
  x2 : ℚ
  y2 : ℚ
  conf : ℚ
  cls : ℤ
deriving DecidableEq

/-- The result of one `model(img)` call (`results[0]` in `src/main.py`
line 123): the list of boxes and the `result.names` class-name table. -/
structure InferResult where
  boxes : List BoxOut
  names : ℤ → String

/-- One detection record, exactly the dictionary built in `src/main.py`
lines 136-143. -/
structure Detection where
  bbox : ℚ × ℚ × ℚ × ℚ
  confidence : ℚ
  class_id : ℤ
  class_name : String
  center_x : ℚ
  center_y : ℚ
deriving DecidableEq

/-- Build one detection from a detector box, `src/main.py` lines 128-143:
`center_x = (x1 + x2) / 2`, `center_y = (y1 + y2) / 2`,
`class_name = result.names[cls]`. -/
def mkDetection (names : ℤ → String) (b : BoxOut) : Detection :=
  { bbox := (b.x1, b.y1, b.x2, b.y2)
    confidence := b.conf
    class_id := b.cls
    class_name := names b.cls
    center_x := (b.x1 + b.x2) / 2
    center_y := (b.y1 + b.y2) / 2 }

/-- The `for box in result.boxes` loop of `src/main.py` lines 127-148:
accumulates the detection list and draws each box and label onto the
(private, pre-publish) image.  `draw` abstracts the
`cv2.rectangle`/`cv2.putText` pair applied per box. -/
def processBoxes {α : Type} (names : ℤ → String) (draw : α → BoxOut → α) :
    α → List BoxOut → α × List Detection
  | img, [] => (img, [])
  | img, b :: rest =>
    let d := mkDetection names b
    let r := processBoxes names draw (draw img b) rest
    (r.1, d :: r.2)

/-- How the capture loop of `src/main.py` left its `while True` loop (or
why it never entered it). -/
inductive CaptureOutcome where
  /-- `cap.isOpened()` was false: log and return (lines 110-112). -/
  | openFailed
  /-- `cap.read()` returned `ret = False`: `break` (lines 118-120). -/
  | readFailed
  /-- `model(img)` raised: there is no handler in `capture_video`, so the
  exception propagates and the capture thread dies (line 122). -/
  | crashed (e : String)
  /-- The modelled read sequence was exhausted with the loop still
  running. -/
  | running
deriving DecidableEq

/-- The environment of one `capture_video` run: whether the device opens,
the sequence of `cap.read()` results (`none` models `ret = False`), the
`model` call (`Except.error` models a raised exception), and the drawing
primitive. -/
structure CamEnv (α : Type) where
  openOk : Bool
  reads : List (Option α)
  infer : α → Except String InferResult
  draw : α → BoxOut → α

/-- The `while True` body of `capture_video` (`src/main.py` lines
117-152) over a finite prefix of device reads.  Returns the list of
published `(annotated frame, detections)` pairs, in publish order, and
how the loop ended. -/
def capture_loop {α : Type} (infer : α → Except String InferResult)
    (draw : α → BoxOut → α) :
    List (Option α) → List (α × List Detection) × CaptureOutcome
  | [] => ([], CaptureOutcome.running)
  | none :: _ => ([], CaptureOutcome.readFailed)
  | some img :: rest =>
    match infer img with
    | Except.error e => ([], CaptureOutcome.crashed e)
    | Except.ok res =>
      let pd := processBoxes res.names draw img res.boxes
      let r := capture_loop infer draw rest
      ((pd.1, pd.2) :: r.1, r.2)

/-- The message printed when the device fails to open
(`src/main.py` line 111). -/
def openFailLog : List String := ["Error: Could not open camera."]

/-- `capture_video` (`src/main.py` lines 105-154): open the device; on
failure log and return with no publish; otherwise run the capture loop.
Returns the log lines, the published pairs, and the outcome. -/
def capture_video {α : Type} (env : CamEnv α) :
    List String × List (α × List Detection) × CaptureOutcome :=
  if env.openOk then
    let r := capture_loop env.infer env.draw env.reads
    ([], r.1, r.2)
  else
    (openFailLog, [], CaptureOutcome.openFailed)

/-- ASCII bytes of a string literal. -/
def bytesOf (s : String) : List Nat := s.data.map Char.toNat

/-- Mimetype of the `/video_feed` response in `src/main.py` line 180. -/
def mainVideoFeedMimetype : String := "multipart/x-mixed-replace; boundary=frame"

/-- Mimetype of the `/video_feed` response in `src/pi_camera.py` line 125. -/
def piVideoFeedMimetype : String := "multipart/x-mixed-replace; boundary=frame"

/-- One iteration of the `generate_frames` generator of `src/main.py`
lines 159-171, from the snapshot of the shared `frame` taken by this
iteration.  With no frame yet it sleeps and retries, yielding nothing;
otherwise it encodes (`_, buffer = cv2.imencode(...)`: the success flag
is bound to `_` and discarded) and yields one multipart chunk.  `none`
models "no chunk emitted this iteration". -/
def generate_frames_iter {α : Type} (encode : α → Bool × List Nat)
    (fr : Option α) : Option (List Nat) :=
  match fr with
  | none => none
  | some img =>
    let r := encode img
    some (bytesOf "--frame\r\nContent-Type: image/jpeg\r\n\r\n" ++ r.2 ++ bytesOf "\r\n")

/-- One iteration of the `generate_camera_stream` generator of
`src/pi_camera.py` lines 77-87, from the snapshot of
`latest_frame_buffer` taken by this iteration.  The cell already holds
encoded JPEG bytes. -/
def generate_camera_stream_iter (fr : Option (List Nat)) : Option (List Nat) :=
  match fr with
  | none => none
  | some buf =>
    some (bytesOf "--frame\r\nContent-Type: image/jpeg\r\n\r\n" ++ buf ++ bytesOf "\r\n")

/-! ## Small-step interleaving model of the `src/main.py` shared cell

The globals `frame`, `detections` and `lock` of `src/main.py` lines 12-14
form the shared cell.  The writer's publish (`with lock: frame =
img.copy(); detections = current_detections`, lines 150-152) is the
action sequence acquire / store frame / store detections / release; a
reader's locked read (`with lock: ...` in `generate_frames` line 164 and
`get_detections` line 184) is acquire / read / release.  The semantics
lets the scheduler interleave threads arbitrarily; only `acq` is guarded
by the lock state, so nothing prevents torn reads except the proved lock
discipline. -/

/-- A primitive action of a thread of `src/main.py`.  Thread 0 is the
writer (`capture_video`); every other thread id is a reader. -/
inductive Action (α : Type) where
  /-- Acquire `lock` (blocks while held). -/
  | acq
  /-- Release `lock`. -/
  | rel
  /-- `frame = img.copy()` (line 151). -/
  | setFrame (f : α)
  /-- `detections = current_detections` (line 152). -/
  | setDets (ds : List Detection)
  /-- A reader's locked read of the cell. -/
  | readPair
deriving DecidableEq

/-- The writer's action sequence for one publish
(`src/main.py` lines 150-152). -/
def publishProg {α : Type} (f : α) (ds : List Detection) : List (Action α) :=
  [Action.acq, Action.setFrame f, Action.setDets ds, Action.rel]

/-- The writer's whole program: one publish per captured pair, in
capture order. -/
def publishesProg {α : Type} : List (α × List Detection) → List (Action α)
  | [] => []
  | p :: ps => publishProg p.1 p.2 ++ publishesProg ps

/-- A reader's action sequence for one locked read. -/
def snapshotProg {α : Type} : List (Action α) :=
  [Action.acq, Action.readPair, Action.rel]

/-- A reader's program: `k` locked reads. -/
def snapshotsProg {α : Type} : Nat → List (Action α)
  | 0 => []
  | k + 1 => snapshotProg ++ snapshotsProg k

/-- One logged locked read: which reader performed it, how many publishes
had completed at that moment (ghost data for stating temporal claims),
and the cell contents it saw. -/
structure Obs (α : Type) where
  reader : Nat
  completed : Nat
  frame : Option α
  dets : List Detection
deriving DecidableEq

/-- Global state of the interleaved system: the lock (holder thread id,
if held), the two shared fields (initially `None` / `[]`, lines 12-13),
the ghost count of completed publishes, each thread's remaining program,
and the log of completed locked reads. -/
structure Sys (α : Type) where
  lock : Option Nat
  frame : Option α
  dets : List Detection
  completed : Nat
  progs : Nat → List (Action α)
  log : List (Obs α)

/-- Replace the program of thread `t`. -/
def setAt {γ : Type} (f : Nat → γ) (t : Nat) (v : γ) : Nat → γ :=
  fun u => if u = t then v else f u

/-- One scheduler step: thread `t` runs its next action.  `acq` blocks
(no state change) while the lock is held; every other action is
unguarded.  The ghost `completed` counter increments when the writer
(thread 0) releases the lock, i.e. when a publish completes. -/
def step {α : Type} (s : Sys α) (t : Nat) : Sys α :=
  match s.progs t with
  | [] => s
  | Action.acq :: rest =>
    if s.lock = none then
      { s with lock := some t, progs := setAt s.progs t rest }
    else s
  | Action.rel :: rest =>
    { s with lock := none
             completed := if t = 0 then s.completed + 1 else s.completed
             progs := setAt s.progs t rest }
  | Action.setFrame f :: rest =>
    { s with frame := some f, progs := setAt s.progs t rest }
  | Action.setDets ds :: rest =>
    { s with dets := ds, progs := setAt s.progs t rest }
  | Action.readPair :: rest =>
    { s with log := s.log ++ [⟨t, s.completed, s.frame, s.dets⟩]
             progs := setAt s.progs t rest }

/-- Initial system: lock free, `frame = None`, `detections = []`
(`src/main.py` lines 12-13), writer about to publish `ps` in order,
reader `t` about to perform `snaps t` locked reads. -/
def initSys {α : Type} (ps : List (α × List Detection)) (snaps : Nat → Nat) :
    Sys α :=
  { lock := none
    frame := none
    dets := []
    completed := 0
    progs := fun t => if t = 0 then publishesProg ps else snapshotsProg (snaps t)
    log := [] }

/-- Run the system under a schedule (an arbitrary list of thread ids). -/
def run {α : Type} (s : Sys α) (sched : List Nat) : Sys α :=
  sched.foldl step s

/-- The cell contents after `c` completed publishes out of `ps`: the
absent sentinel before the first, the `c`-th published pair after. -/
def cellAt {α : Type} (ps : List (α × List Detection)) :
    Nat → Option α × List Detection
  | 0 => (none, [])
  | c + 1 =>
    match ps[c]? with
    | some p => (some p.1, p.2)
    | none => (none, [])

/-- Shape invariant of the writer (thread 0): either it is between
publishes (lock-free boundary, cell holding the last completed publish),
or it is mid-publish holding the lock, at one of the three interior
program points.  Between `setFrame` and `setDets` the cell is torn —
the invariant promises nothing about `ds` there. -/
def writerShape {α : Type} (ps : List (α × List Detection)) (c : Nat)
    (prog : List (Action α)) (lk : Option Nat) (fr : Option α)
    (ds : List Detection) : Prop :=
  (prog = publishesProg (ps.drop c) ∧ fr = (cellAt ps c).1 ∧ ds = (cellAt ps c).2)
  ∨ ∃ p, ps[c]? = some p ∧ lk = some 0 ∧
      (prog = Action.setFrame p.1 :: Action.setDets p.2 :: Action.rel ::
          publishesProg (ps.drop (c + 1))
       ∨ (prog = Action.setDets p.2 :: Action.rel ::
            publishesProg (ps.drop (c + 1)) ∧ fr = some p.1)
       ∨ (prog = Action.rel :: publishesProg (ps.drop (c + 1)) ∧
            fr = some p.1 ∧ ds = p.2))

/-- Shape invariant of reader `t`: between reads (any lock state), or
mid-read holding the lock. -/
def readerShape {α : Type} (t : Nat) (prog : List (Action α))
    (lk : Option Nat) : Prop :=
  (∃ k, prog = snapshotsProg k)
  ∨ (lk = some t ∧ ∃ k, prog = Action.readPair :: Action.rel :: snapshotsProg k)
  ∨ (lk = some t ∧ ∃ k, prog = Action.rel :: snapshotsProg k)

/-- The global invariant of the interleaved system. -/
structure Inv {α : Type} (ps : List (α × List Detection)) (s : Sys α) : Prop where
  hlen : s.completed ≤ ps.length
  hw : writerShape ps s.completed (s.progs 0) s.lock s.frame s.dets
  hr : ∀ t, t ≠ 0 → readerShape t (s.progs t) s.lock
  hlog : ∀ o ∈ s.log, o.frame = (cellAt ps o.completed).1 ∧
    o.dets = (cellAt ps o.completed).2 ∧ o.completed ≤ ps.length
  hpair : s.log.Pairwise (fun a b => a.completed ≤ b.completed)
  hle : ∀ o ∈ s.log, o.completed ≤ s.completed

/-! ## Small-step interleaving model of the `src/pi_camera.py` shared cell

`src/pi_camera.py` protects the single global `latest_frame_buffer` with
`frame_lock`.  The writer's publish (`with frame_lock:
latest_frame_buffer = frame_data`, lines 60-61) is acquire / store /
release; the reader's locked read (`with frame_lock: frame_to_send =
latest_frame_buffer`, lines 78-79) is acquire / read / release. -/

/-- A primitive action of a thread of `src/pi_camera.py`.  Thread 0 is
the writer (`capture_frames_continuously`); every other thread id is a
`generate_camera_stream` reader. -/
inductive PiAction (β : Type) where
  /-- Acquire `frame_lock` (blocks while held). -/
  | acq
  /-- Release `frame_lock`. -/
  | rel
  /-- `latest_frame_buffer = frame_data` (line 61): the stored value is
  a buffer the encoder actually wrote, never the absent sentinel. -/
  | setBuf (b : β)
  /-- A reader's locked read of the buffer (line 79). -/
  | readBuf
deriving DecidableEq

/-- The pi writer's whole program: one single-store publish per encoded
frame, in capture order. -/
def piPublishesProg {β : Type} : List β → List (PiAction β)
  | [] => []
  | f :: fs => PiAction.acq :: PiAction.setBuf f :: PiAction.rel :: piPublishesProg fs

/-- A pi reader's program: `k` locked reads. -/
def piSnapshotsProg {β : Type} : Nat → List (PiAction β)
  | 0 => []
  | k + 1 => PiAction.acq :: PiAction.readBuf :: PiAction.rel :: piSnapshotsProg k

/-- One logged locked read of `latest_frame_buffer`. -/
structure PiObs (β : Type) where
  reader : Nat
  completed : Nat
  buf : Option β
deriving DecidableEq

/-- Global state of the interleaved pi system.  `buf` is
`latest_frame_buffer`, initially `None` (line 20). -/
structure PiSys (β : Type) where
  lock : Option Nat
  buf : Option β
  completed : Nat
  progs : Nat → List (PiAction β)
  log : List (PiObs β)

/-- One scheduler step of the pi system. -/
def piStep {β : Type} (s : PiSys β) (t : Nat) : PiSys β :=
  match s.progs t with
  | [] => s
  | PiAction.acq :: rest =>
    if s.lock = none then
      { s with lock := some t, progs := setAt s.progs t rest }
    else s
  | PiAction.rel :: rest =>
    { s with lock := none
             completed := if t = 0 then s.completed + 1 else s.completed
             progs := setAt s.progs t rest }
  | PiAction.setBuf b :: rest =>
    { s with buf := some b, progs := setAt s.progs t rest }
  | PiAction.readBuf :: rest =>
    { s with log := s.log ++ [⟨t, s.completed, s.buf⟩]
             progs := setAt s.progs t rest }

/-- Initial pi system: lock free, `latest_frame_buffer = None`
(`src/pi_camera.py` line 20). -/
def piInit {β : Type} (fs : List β) (snaps : Nat → Nat) : PiSys β :=
  { lock := none
    buf := none
    completed := 0
    progs := fun t => if t = 0 then piPublishesProg fs else piSnapshotsProg (snaps t)
    log := [] }

/-- Run the pi system under a schedule. -/
def piRun {β : Type} (s : PiSys β) (sched : List Nat) : PiSys β :=
  sched.foldl piStep s

/-- The pi buffer after `c` completed publishes out of `fs`. -/
def piCellAt {β : Type} (fs : List β) : Nat → Option β
  | 0 => none
  | c + 1 => fs[c]?

/-- Shape invariant of the pi writer (thread 0). -/
def piWriterShape {β : Type} (fs : List β) (c : Nat) (prog : List (PiAction β))
    (lk : Option Nat) (bf : Option β) : Prop :=
  (prog = piPublishesProg (fs.drop c) ∧ bf = piCellAt fs c)
  ∨ ∃ f, fs[c]? = some f ∧ lk = some 0 ∧
      (prog = PiAction.setBuf f :: PiAction.rel :: piPublishesProg (fs.drop (c + 1))
       ∨ (prog = PiAction.rel :: piPublishesProg (fs.drop (c + 1)) ∧ bf = some f))

/-- Shape invariant of pi reader `t`. -/
def piReaderShape {β : Type} (t : Nat) (prog : List (PiAction β))
    (lk : Option Nat) : Prop :=
  (∃ k, prog = piSnapshotsProg k)
  ∨ (lk = some t ∧ ∃ k, prog = PiAction.readBuf :: PiAction.rel :: piSnapshotsProg k)
  ∨ (lk = some t ∧ ∃ k, prog = PiAction.rel :: piSnapshotsProg k)

/-- The global invariant of the interleaved pi system. -/
structure PiInv {β : Type} (fs : List β) (s : PiSys β) : Prop where
  hlen : s.completed ≤ fs.length
  hw : piWriterShape fs s.completed (s.progs 0) s.lock s.buf
  hr : ∀ t, t ≠ 0 → piReaderShape t (s.progs t) s.lock
  hlog : ∀ o ∈ s.log, o.buf = piCellAt fs o.completed ∧ o.completed ≤ fs.length
  hpair : s.log.Pairwise (fun a b => a.completed ≤ b.completed)
  hle : ∀ o ∈ s.log, o.completed ≤ s.completed

/-- A concrete environment on which `model(img)` raises on the first
frame while a second frame is still pending from the device. -/
def c3Env : CamEnv Nat :=
  { openOk := true
    reads := [some 1, some 2]
    infer := fun img =>
      if img = 1 then Except.error "boom"
      else Except.ok { boxes := [], names := fun _ => "" }
    draw := fun i _ => i }

/-- A concrete encoder that reports failure (`retval = False`, as
`cv2.imencode` does) while its buffer holds left-over bytes. -/
def c8Encode : Nat → Bool × List Nat := fun _ => (false, [1, 2, 3])

/-! ## List helper lemmas -/

theorem drop_cons_facts {γ : Type} {l : List γ} {c : Nat} {p : γ} {tail : List γ}
    (h : l.drop c = p :: tail) : l[c]? = some p ∧ l.drop (c + 1) = tail := by
  induction l generalizing c with
  | nil => simp at h
  | cons x xs ih =>
    cases c with
    | zero => simp at h; simp [h]
    | succ c =>
      simp only [List.drop_succ_cons] at h
      simpa using ih h

theorem getElem_opt_facts {γ : Type} {l : List γ} {c : Nat} {p : γ}
    (h : l[c]? = some p) : c < l.length ∧ p ∈ l := by
  induction l generalizing c with
  | nil => simp at h
  | cons x xs ih =>
    cases c with
    | zero => simp_all
    | succ c =>
      simp only [List.getElem?_cons_succ] at h
      obtain ⟨h1, h2⟩ := ih h
      exact ⟨Nat.succ_lt_succ h1, List.mem_cons_of_mem _ h2⟩

theorem setAt_same {γ : Type} (f : Nat → γ) (t : Nat) (v : γ) : setAt f t v t = v := by
  simp [setAt]

theorem setAt_other {γ : Type} (f : Nat → γ) (t : Nat) (v : γ) {u : Nat}
    (h : u ≠ t) : setAt f t v u = f u := by
  simp [setAt, h]

/-! ## Program and shape lemmas for the `src/main.py` model -/

theorem publishesProg_cons {α : Type} (p : α × List Detection)
    (l : List (α × List Detection)) :
    publishesProg (p :: l) = Action.acq :: Action.setFrame p.1 ::
      Action.setDets p.2 :: Action.rel :: publishesProg l := rfl

theorem snapshotsProg_succ {α : Type} (k : Nat) :
    (snapshotsProg (k + 1) : List (Action α)) =
      Action.acq :: Action.readPair :: Action.rel :: snapshotsProg k := rfl

theorem cellAt_get {α : Type} {ps : List (α × List Detection)} {c : Nat}
    {p : α × List Detection} (h : ps[c]? = some p) :
    cellAt ps (c + 1) = (some p.1, p.2) := by
  simp [cellAt, h]

theorem cellAt_nil {α : Type} (c : Nat) :
    cellAt ([] : List (α × List Detection)) c = (none, []) := by
  cases c <;> simp [cellAt]

theorem readerShape_boundary {α : Type} {t : Nat} {prog : List (Action α)}
    {lk : Option Nat} (h : readerShape t prog lk) (hne : lk ≠ some t) :
    ∃ k, prog = snapshotsProg k := by
  rcases h with h | ⟨hl, _⟩ | ⟨hl, _⟩
  · exact h
  · exact absurd hl hne
  · exact absurd hl hne

theorem readerShape_relock {α : Type} {t : Nat} {prog : List (Action α)}
    {lk : Option Nat} (lk' : Option Nat) (h : readerShape t prog lk)
    (hne : lk ≠ some t) : readerShape t prog lk' :=
  Or.inl (readerShape_boundary h hne)

theorem writerShape_boundary {α : Type} {ps : List (α × List Detection)}
    {c : Nat} {prog : List (Action α)} {lk : Option Nat} {fr : Option α}
    {ds : List Detection} (h : writerShape ps c prog lk fr ds)
    (hne : lk ≠ some 0) :
    prog = publishesProg (ps.drop c) ∧ fr = (cellAt ps c).1 ∧ ds = (cellAt ps c).2 := by
  rcases h with h | ⟨p, _, hl, _⟩
  · exact h
  · exact absurd hl hne

theorem writerShape_relock {α : Type} {ps : List (α × List Detection)}
    {c : Nat} {prog : List (Action α)} {lk : Option Nat} {fr : Option α}
    {ds : List Detection} (lk' : Option Nat) (h : writerShape ps c prog lk fr ds)
    (hne : lk ≠ some 0) : writerShape ps c prog lk' fr ds :=
  Or.inl (writerShape_boundary h hne)

/-! ## Step equations for the `src/main.py` model -/

theorem step_empty {α : Type} {s : Sys α} {t : Nat} (hp : s.progs t = []) :
    step s t = s := by
  simp [step, hp]

theorem step_acq_free {α : Type} {s : Sys α} {t : Nat} {rest : List (Action α)}
    (hp : s.progs t = Action.acq :: rest) (hl : s.lock = none) :
    step s t = { s with lock := some t, progs := setAt s.progs t rest } := by
  simp [step, hp, hl]

theorem step_acq_blocked {α : Type} {s : Sys α} {t : Nat} {rest : List (Action α)}
    (hp : s.progs t = Action.acq :: rest) (hl : s.lock ≠ none) :
    step s t = s := by
  simp [step, hp, hl]

theorem step_rel {α : Type} {s : Sys α} {t : Nat} {rest : List (Action α)}
    (hp : s.progs t = Action.rel :: rest) :
    step s t = { s with lock := none
                        completed := if t = 0 then s.completed + 1 else s.completed
                        progs := setAt s.progs t rest } := by
  simp [step, hp]

theorem step_setFrame {α : Type} {s : Sys α} {t : Nat} {f : α}
    {rest : List (Action α)} (hp : s.progs t = Action.setFrame f :: rest) :
    step s t = { s with frame := some f, progs := setAt s.progs t rest } := by
  simp [step, hp]

theorem step_setDets {α : Type} {s : Sys α} {t : Nat} {ds : List Detection}
    {rest : List (Action α)} (hp : s.progs t = Action.setDets ds :: rest) :
    step s t = { s with dets := ds, progs := setAt s.progs t rest } := by
  simp [step, hp]

theorem step_readPair {α : Type} {s : Sys α} {t : Nat} {rest : List (Action α)}
    (hp : s.progs t = Action.readPair :: rest) :
    step s t = { s with log := s.log ++ [⟨t, s.completed, s.frame, s.dets⟩]
                        progs := setAt s.progs t rest } := by
  simp [step, hp]

/-- The invariant is preserved by every scheduler step: the heart of the
mutual-exclusion argument for `src/main.py`.  No case assumes atomicity;
torn writer states are explicitly represented, and the proof shows a
reader's locked read can never coincide with them. -/
theorem inv_step {α : Type} (ps : List (α × List Detection)) (s : Sys α)
    (t : Nat) (h : Inv ps s) : Inv ps (step s t) := by
  obtain ⟨hlen, hw, hr, hlog, hpair, hle⟩ := h
  by_cases ht : t = 0
  · subst ht
    rcases hw with ⟨hp, hf, hd⟩ | ⟨p, hget, hlk, hshape⟩
    · rcases hps : ps.drop s.completed with _ | ⟨p, tail⟩
      · rw [hps] at hp
        simp only [publishesProg] at hp
        rw [step_empty hp]
        refine ⟨hlen, Or.inl ⟨?_, hf, hd⟩, hr, hlog, hpair, hle⟩
        rw [hps]
        simp only [publishesProg]
        exact hp
      · obtain ⟨hget, hdrop⟩ := drop_cons_facts hps
        rw [hps, publishesProg_cons] at hp
        by_cases hl : s.lock = none
        · rw [step_acq_free hp hl]
          refine ⟨hlen, ?_, ?_, hlog, hpair, hle⟩
          · dsimp only
            refine Or.inr ⟨p, hget, rfl, Or.inl ?_⟩
            rw [setAt_same, hdrop]
          · intro u hu
            dsimp only
            rw [setAt_other _ _ _ hu]
            exact readerShape_relock _ (hr u hu) (by simp [hl])
        · rw [step_acq_blocked hp hl]
          refine ⟨hlen, Or.inl ⟨?_, hf, hd⟩, hr, hlog, hpair, hle⟩
          rw [hps, publishesProg_cons]
          exact hp
    · rcases hshape with hprog | ⟨hprog, hfr⟩ | ⟨hprog, hfr, hds⟩
      · rw [step_setFrame hprog]
        refine ⟨hlen, ?_, ?_, hlog, hpair, hle⟩
        · dsimp only
          refine Or.inr ⟨p, hget, hlk, Or.inr (Or.inl ⟨?_, rfl⟩)⟩
          rw [setAt_same]
        · intro u hu
          dsimp only
          rw [setAt_other _ _ _ hu]
          exact hr u hu
      · rw [step_setDets hprog]
        refine ⟨hlen, ?_, ?_, hlog, hpair, hle⟩
        · dsimp only
          refine Or.inr ⟨p, hget, hlk, Or.inr (Or.inr ⟨?_, hfr, rfl⟩)⟩
          rw [setAt_same]
        · intro u hu
          dsimp only
          rw [setAt_other _ _ _ hu]
          exact hr u hu
      · rw [step_rel hprog]
        have hc : s.completed < ps.length := (getElem_opt_facts hget).1
        refine ⟨?_, ?_, ?_, hlog, hpair, ?_⟩
        · dsimp only
          rw [if_pos rfl]
          omega
        · dsimp only
          rw [if_pos rfl]
          refine Or.inl ⟨?_, ?_, ?_⟩
          · rw [setAt_same]
          · rw [cellAt_get hget]
            exact hfr
          · rw [cellAt_get hget]
            exact hds
        · intro u hu
          dsimp only
          rw [setAt_other _ _ _ hu]
          refine readerShape_relock _ (hr u hu) ?_
          rw [hlk]
          intro hcon
          exact hu (Option.some.inj hcon).symm
        · dsimp only
          rw [if_pos rfl]
          intro o ho
          exact Nat.le_succ_of_le (hle o ho)
  · have hrs := hr t ht
    rcases hrs with ⟨k, hk⟩ | ⟨hlk, k, hk⟩ | ⟨hlk, k, hk⟩
    · cases k with
      | zero =>
        simp only [snapshotsProg] at hk
        rw [step_empty hk]
        exact ⟨hlen, hw, hr, hlog, hpair, hle⟩
      | succ k =>
        rw [snapshotsProg_succ] at hk
        by_cases hl : s.lock = none
        · rw [step_acq_free hk hl]
          refine ⟨hlen, ?_, ?_, hlog, hpair, hle⟩
          · dsimp only
            rw [setAt_other _ _ _ (Ne.symm ht)]
            exact writerShape_relock _ hw (by simp [hl])
          · intro u hu
            dsimp only
            by_cases hut : u = t
            · subst hut
              rw [setAt_same]
              exact Or.inr (Or.inl ⟨rfl, k, rfl⟩)
            · rw [setAt_other _ _ _ hut]
              exact readerShape_relock _ (hr u hu) (by simp [hl])
        · rw [step_acq_blocked hk hl]
          exact ⟨hlen, hw, hr, hlog, hpair, hle⟩
    · rw [step_readPair hk]
      have hwb := writerShape_boundary hw
        (by rw [hlk]; intro hcon; exact ht (Option.some.inj hcon))
      obtain ⟨hbp, hbf, hbd⟩ := hwb
      refine ⟨hlen, ?_, ?_, ?_, ?_, ?_⟩
      · dsimp only
        refine Or.inl ⟨?_, hbf, hbd⟩
        rw [setAt_other _ _ _ (Ne.symm ht)]
        exact hbp
      · intro u hu
        dsimp only
        by_cases hut : u = t
        · subst hut
          rw [setAt_same]
          exact Or.inr (Or.inr ⟨hlk, k, rfl⟩)
        · rw [setAt_other _ _ _ hut]
          exact hr u hu
      · dsimp only
        intro o ho
        rcases List.mem_append.mp ho with ho | ho
        · exact hlog o ho
        · simp only [List.mem_singleton] at ho
          subst ho
          exact ⟨hbf, hbd, hlen⟩
      · dsimp only
        rw [List.pairwise_append]
        refine ⟨hpair, List.pairwise_singleton _ _, ?_⟩
        intro a ha b hb
        simp only [List.mem_singleton] at hb
        subst hb
        exact hle a ha
      · dsimp only
        intro o ho
        rcases List.mem_append.mp ho with ho | ho
        · exact hle o ho
        · simp only [List.mem_singleton] at ho
          subst ho
          exact le_refl _
    · rw [step_rel hk]
      refine ⟨?_, ?_, ?_, hlog, hpair, ?_⟩
      · dsimp only
        rw [if_neg ht]
        exact hlen
      · dsimp only
        rw [if_neg ht, setAt_other _ _ _ (Ne.symm ht)]
        exact writerShape_relock _ hw
          (by rw [hlk]; intro hcon; exact ht (Option.some.inj hcon))
      · intro u hu
        dsimp only
        by_cases hut : u = t
        · subst hut
          rw [setAt_same]
          exact Or.inl ⟨k, rfl⟩
        · rw [setAt_other _ _ _ hut]
          exact readerShape_relock _ (hr u hu)
            (by rw [hlk]; intro hcon; exact hut (Option.some.inj hcon).symm)
      · dsimp only
        rw [if_neg ht]
        exact hle

/-- The invariant holds initially. -/
theorem inv_init {α : Type} (ps : List (α × List Detection)) (snaps : Nat → Nat) :
    Inv ps (initSys ps snaps) := by
  refine ⟨Nat.zero_le _, ?_, ?_, ?_, ?_, ?_⟩
  · refine Or.inl ⟨?_, rfl, rfl⟩
    simp [initSys]
  · intro t ht
    refine Or.inl ⟨snaps t, ?_⟩
    simp [initSys, ht]
  · intro o ho
    simp [initSys] at ho
  · simp [initSys]
  · intro o ho
    simp [initSys] at ho

/-- The invariant holds after any schedule. -/
theorem inv_run {α : Type} (ps : List (α × List Detection)) (s : Sys α)
    (sched : List Nat) (h : Inv ps s) : Inv ps (run s sched) := by
  induction sched generalizing s with
  | nil => exact h
  | cons t rest ih => exact ih (step s t) (inv_step ps s t h)

/-! ## Program and shape lemmas for the `src/pi_camera.py` model -/

theorem piPublishesProg_cons {β : Type} (f : β) (fs : List β) :
    piPublishesProg (f :: fs) = PiAction.acq :: PiAction.setBuf f ::
      PiAction.rel :: piPublishesProg fs := rfl

theorem piSnapshotsProg_succ {β : Type} (k : Nat) :
    (piSnapshotsProg (k + 1) : List (PiAction β)) =
      PiAction.acq :: PiAction.readBuf :: PiAction.rel :: piSnapshotsProg k := rfl

theorem piCellAt_get {β : Type} {fs : List β} {c : Nat} {f : β}
    (h : fs[c]? = some f) : piCellAt fs (c + 1) = some f := by
  simp [piCellAt, h]

theorem piReaderShape_boundary {β : Type} {t : Nat} {prog : List (PiAction β)}
    {lk : Option Nat} (h : piReaderShape t prog lk) (hne : lk ≠ some t) :
    ∃ k, prog = piSnapshotsProg k := by
  rcases h with h | ⟨hl, _⟩ | ⟨hl, _⟩
  · exact h
  · exact absurd hl hne
  · exact absurd hl hne

theorem piReaderShape_relock {β : Type} {t : Nat} {prog : List (PiAction β)}
    {lk : Option Nat} (lk' : Option Nat) (h : piReaderShape t prog lk)
    (hne : lk ≠ some t) : piReaderShape t prog lk' :=
  Or.inl (piReaderShape_boundary h hne)

theorem piWriterShape_boundary {β : Type} {fs : List β} {c : Nat}
    {prog : List (PiAction β)} {lk : Option Nat} {bf : Option β}
    (h : piWriterShape fs c prog lk bf) (hne : lk ≠ some 0) :
    prog = piPublishesProg (fs.drop c) ∧ bf = piCellAt fs c := by
  rcases h with h | ⟨f, _, hl, _⟩
  · exact h
  · exact absurd hl hne

theorem piWriterShape_relock {β : Type} {fs : List β} {c : Nat}
    {prog : List (PiAction β)} {lk : Option Nat} {bf : Option β}
    (lk' : Option Nat) (h : piWriterShape fs c prog lk bf)
    (hne : lk ≠ some 0) : piWriterShape fs c prog lk' bf :=
  Or.inl (piWriterShape_boundary h hne)

/-! ## Step equations for the `src/pi_camera.py` model -/

theorem piStep_empty {β : Type} {s : PiSys β} {t : Nat} (hp : s.progs t = []) :
    piStep s t = s := by
  simp [piStep, hp]

theorem piStep_acq_free {β : Type} {s : PiSys β} {t : Nat}
    {rest : List (PiAction β)} (hp : s.progs t = PiAction.acq :: rest)
    (hl : s.lock = none) :
    piStep s t = { s with lock := some t, progs := setAt s.progs t rest } := by
  simp [piStep, hp, hl]

theorem piStep_acq_blocked {β : Type} {s : PiSys β} {t : Nat}
    {rest : List (PiAction β)} (hp : s.progs t = PiAction.acq :: rest)
    (hl : s.lock ≠ none) : piStep s t = s := by
  simp [piStep, hp, hl]

theorem piStep_rel {β : Type} {s : PiSys β} {t : Nat}
    {rest : List (PiAction β)} (hp : s.progs t = PiAction.rel :: rest) :
    piStep s t = { s with lock := none
                          completed := if t = 0 then s.completed + 1 else s.completed
                          progs := setAt s.progs t rest } := by
  simp [piStep, hp]

theorem piStep_setBuf {β : Type} {s : PiSys β} {t : Nat} {b : β}
    {rest : List (PiAction β)} (hp : s.progs t = PiAction.setBuf b :: rest) :
    piStep s t = { s with buf := some b, progs := setAt s.progs t rest } := by
  simp [piStep, hp]

theorem piStep_readBuf {β : Type} {s : PiSys β} {t : Nat}
    {rest : List (PiAction β)} (hp : s.progs t = PiAction.readBuf :: rest) :
    piStep s t = { s with log := s.log ++ [⟨t, s.completed, s.buf⟩]
                          progs := setAt s.progs t rest } := by
  simp [piStep, hp]

/-- The pi invariant is preserved by every scheduler step. -/
theorem piInv_step {β : Type} (fs : List β) (s : PiSys β) (t : Nat)
    (h : PiInv fs s) : PiInv fs (piStep s t) := by
  obtain ⟨hlen, hw, hr, hlog, hpair, hle⟩ := h
  by_cases ht : t = 0
  · subst ht
    rcases hw with ⟨hp, hb⟩ | ⟨f, hget, hlk, hshape⟩
    · rcases hps : fs.drop s.completed with _ | ⟨f, tail⟩
      · rw [hps] at hp
        simp only [piPublishesProg] at hp
        rw [piStep_empty hp]
        refine ⟨hlen, Or.inl ⟨?_, hb⟩, hr, hlog, hpair, hle⟩
        rw [hps]
        simp only [piPublishesProg]
        exact hp
      · obtain ⟨hget, hdrop⟩ := drop_cons_facts hps
        rw [hps, piPublishesProg_cons] at hp
        by_cases hl : s.lock = none
        · rw [piStep_acq_free hp hl]
          refine ⟨hlen, ?_, ?_, hlog, hpair, hle⟩
          · dsimp only
            refine Or.inr ⟨f, hget, rfl, Or.inl ?_⟩
            rw [setAt_same, hdrop]
          · intro u hu
            dsimp only
            rw [setAt_other _ _ _ hu]
            exact piReaderShape_relock _ (hr u hu) (by simp [hl])
        · rw [piStep_acq_blocked hp hl]
          refine ⟨hlen, Or.inl ⟨?_, hb⟩, hr, hlog, hpair, hle⟩
          rw [hps, piPublishesProg_cons]
          exact hp
    · rcases hshape with hprog | ⟨hprog, hbf⟩
      · rw [piStep_setBuf hprog]
        refine ⟨hlen, ?_, ?_, hlog, hpair, hle⟩
        · dsimp only
          refine Or.inr ⟨f, hget, hlk, Or.inr ⟨?_, rfl⟩⟩
          rw [setAt_same]
        · intro u hu
          dsimp only
          rw [setAt_other _ _ _ hu]
          exact hr u hu
      · rw [piStep_rel hprog]
        have hc : s.completed < fs.length := (getElem_opt_facts hget).1
        refine ⟨?_, ?_, ?_, hlog, hpair, ?_⟩
        · dsimp only
          rw [if_pos rfl]
          omega
        · dsimp only
          rw [if_pos rfl]
          refine Or.inl ⟨?_, ?_⟩
          · rw [setAt_same]
          · rw [piCellAt_get hget]
            exact hbf
        · intro u hu
          dsimp only
          rw [setAt_other _ _ _ hu]
          refine piReaderShape_relock _ (hr u hu) ?_
          rw [hlk]
          intro hcon
          exact hu (Option.some.inj hcon).symm
        · dsimp only
          rw [if_pos rfl]
          intro o ho
          exact Nat.le_succ_of_le (hle o ho)
  · have hrs := hr t ht
    rcases hrs with ⟨k, hk⟩ | ⟨hlk, k, hk⟩ | ⟨hlk, k, hk⟩
    · cases k with
      | zero =>
        simp only [piSnapshotsProg] at hk
        rw [piStep_empty hk]
        exact ⟨hlen, hw, hr, hlog, hpair, hle⟩
      | succ k =>
        rw [piSnapshotsProg_succ] at hk
        by_cases hl : s.lock = none
        · rw [piStep_acq_free hk hl]
          refine ⟨hlen, ?_, ?_, hlog, hpair, hle⟩
          · dsimp only
            rw [setAt_other _ _ _ (Ne.symm ht)]
            exact piWriterShape_relock _ hw (by simp [hl])
          · intro u hu
            dsimp only
            by_cases hut : u = t
            · subst hut
              rw [setAt_same]
              exact Or.inr (Or.inl ⟨rfl, k, rfl⟩)
            · rw [setAt_other _ _ _ hut]
              exact piReaderShape_relock _ (hr u hu) (by simp [hl])
        · rw [piStep_acq_blocked hk hl]
          exact ⟨hlen, hw, hr, hlog, hpair, hle⟩
    · rw [piStep_readBuf hk]
      have hwb := piWriterShape_boundary hw
        (by rw [hlk]; intro hcon; exact ht (Option.some.inj hcon))
      obtain ⟨hbp, hbb⟩ := hwb
      refine ⟨hlen, ?_, ?_, ?_, ?_, ?_⟩
      · dsimp only
        refine Or.inl ⟨?_, hbb⟩
        rw [setAt_other _ _ _ (Ne.symm ht)]
        exact hbp
      · intro u hu
        dsimp only
        by_cases hut : u = t
        · subst hut
          rw [setAt_same]
          exact Or.inr (Or.inr ⟨hlk, k, rfl⟩)
        · rw [setAt_other _ _ _ hut]
          exact hr u hu
      · dsimp only
        intro o ho
        rcases List.mem_append.mp ho with ho | ho
        · exact hlog o ho
        · simp only [List.mem_singleton] at ho
          subst ho
          exact ⟨hbb, hlen⟩
      · dsimp only
        rw [List.pairwise_append]
        refine ⟨hpair, List.pairwise_singleton _ _, ?_⟩
        intro a ha b hb
        simp only [List.mem_singleton] at hb
        subst hb
        exact hle a ha
      · dsimp only
        intro o ho
        rcases List.mem_append.mp ho with ho | ho
        · exact hle o ho
        · simp only [List.mem_singleton] at ho
          subst ho
          exact le_refl _
    · rw [piStep_rel hk]
      refine ⟨?_, ?_, ?_, hlog, hpair, ?_⟩
      · dsimp only
        rw [if_neg ht]
        exact hlen
      · dsimp only
        rw [if_neg ht, setAt_other _ _ _ (Ne.symm ht)]
        exact piWriterShape_relock _ hw
          (by rw [hlk]; intro hcon; exact ht (Option.some.inj hcon))
      · intro u hu
        dsimp only
        by_cases hut : u = t
        · subst hut
          rw [setAt_same]
          exact Or.inl ⟨k, rfl⟩
        · rw [setAt_other _ _ _ hut]
          exact piReaderShape_relock _ (hr u hu)
            (by rw [hlk]; intro hcon; exact hut (Option.some.inj hcon).symm)
      · dsimp only
        rw [if_neg ht]
        exact hle

/-- The pi invariant holds initially. -/
theorem piInv_init {β : Type} (fs : List β) (snaps : Nat → Nat) :
    PiInv fs (piInit fs snaps) := by
  refine ⟨Nat.zero_le _, ?_, ?_, ?_, ?_, ?_⟩
  · refine Or.inl ⟨?_, rfl⟩
    simp [piInit]
  · intro t ht
    refine Or.inl ⟨snaps t, ?_⟩
    simp [piInit, ht]
  · intro o ho
    simp [piInit] at ho
  · simp [piInit]
  · intro o ho
    simp [piInit] at ho

/-- The pi invariant holds after any schedule. -/
theorem piInv_run {β : Type} (fs : List β) (s : PiSys β) (sched : List Nat)
    (h : PiInv fs s) : PiInv fs (piRun s sched) := by
  induction sched generalizing s with
  | nil => exact h
  | cons t rest ih => exact ih (piStep s t) (piInv_step fs s t h)

/-! ## Capture-loop helper lemmas -/

theorem processBoxes_mem {α : Type} {names : ℤ → String} {draw : α → BoxOut → α}
    {img : α} {bs : List BoxOut} {d : Detection}
    (h : d ∈ (processBoxes names draw img bs).2) :
    ∃ b ∈ bs, d = mkDetection names b := by
  induction bs generalizing img with
  | nil => simp [processBoxes] at h
  | cons b rest ih =>
    simp only [processBoxes, List.mem_cons] at h
    rcases h with h | h
    · exact ⟨b, List.mem_cons_self b rest, h⟩
    · obtain ⟨b', hb', hd'⟩ := ih h
      exact ⟨b', List.mem_cons_of_mem _ hb', hd'⟩

theorem capture_loop_mem {α : Type} {infer : α → Except String InferResult}
    {draw : α → BoxOut → α} {reads : List (Option α)} {pub : α × List Detection}
    (h : pub ∈ (capture_loop infer draw reads).1) :
    ∃ img res, infer img = Except.ok res ∧
      pub = processBoxes res.names draw img res.boxes := by
  induction reads with
  | nil => simp [capture_loop] at h
  | cons r rest ih =>
    cases r with
    | none => simp [capture_loop] at h
    | some img =>
      cases hinf : infer img with
      | error e => simp [capture_loop, hinf] at h
      | ok res =>
        simp only [capture_loop, hinf, List.mem_cons] at h
        rcases h with h | h
        · exact ⟨img, res, hinf, h⟩
        · exact ih h

/-! ## Claims -/

/-- C1: for every sequence of publishes (the writer's lock-protected
stores, `src/main.py` lines 150-152) interleaved with locked reads by any
number of readers under any schedule, each logged read returns either the
absent sentinel `(None, [])` or a `(frame, detections)` pair written by
exactly one publish — never fields mixed from two different publishes. -/
theorem snapshot_pair_single_publish {α : Type} (ps : List (α × List Detection))
    (snaps : Nat → Nat) (sched : List Nat) (o : Obs α)
    (ho : o ∈ (run (initSys ps snaps) sched).log) :
    (o.frame = none ∧ o.dets = []) ∨
      ∃ p ∈ ps, o.frame = some p.1 ∧ o.dets = p.2 := by
  have hinv := inv_run ps (initSys ps snaps) sched (inv_init ps snaps)
  obtain ⟨hf, hd, hc⟩ := hinv.hlog o ho
  cases hoc : o.completed with
  | zero =>
    rw [hoc] at hf hd
    simp only [cellAt] at hf hd
    exact Or.inl ⟨hf, hd⟩
  | succ c =>
    rw [hoc] at hf hd hc
    have hlt : c < ps.length := Nat.lt_of_succ_le hc
    have hget : ps[c]? = some ps[c] := List.getElem?_eq_getElem hlt
    rw [cellAt_get hget] at hf hd
    exact Or.inr ⟨ps[c], List.getElem_mem hlt, hf, hd⟩

/-- Witness for C1: a concrete run (one publish of frame `5` with no
detections, then one locked read) on which the theorem's conclusion is
exhibited. -/
theorem snapshot_pair_single_publish_check :
    ((⟨1, 1, some 5, []⟩ : Obs Nat).frame = none ∧
        (⟨1, 1, some 5, []⟩ : Obs Nat).dets = []) ∨
      ∃ p ∈ [((5 : Nat), ([] : List Detection))],
        (⟨1, 1, some 5, []⟩ : Obs Nat).frame = some p.1 ∧
        (⟨1, 1, some 5, []⟩ : Obs Nat).dets = p.2 :=
  snapshot_pair_single_publish [((5 : Nat), ([] : List Detection))] (fun _ => 1)
    [0, 0, 0, 0, 1, 1, 1] ⟨1, 1, some 5, []⟩ (by decide)

/-- C2: a locked read performed while no publish has yet completed
returns exactly the absent sentinel — `frame = None` (so `/detections`
serializes the empty list, `src/main.py` lines 12-13 and 182-185) and a
`generate_frames` iteration seeing no frame emits no chunk and retries
(lines 159-161). -/
theorem snapshot_absent_before_first_publish {α : Type}
    (ps : List (α × List Detection)) (snaps : Nat → Nat) (sched : List Nat)
    (o : Obs α) (ho : o ∈ (run (initSys ps snaps) sched).log)
    (h0 : o.completed = 0) :
    (o.frame = none ∧ o.dets = []) ∧
      ∀ encode : α → Bool × List Nat, generate_frames_iter encode none = none := by
  have hinv := inv_run ps (initSys ps snaps) sched (inv_init ps snaps)
  obtain ⟨hf, hd, _⟩ := hinv.hlog o ho
  rw [h0] at hf hd
  simp only [cellAt] at hf hd
  exact ⟨⟨hf, hd⟩, fun _ => rfl⟩

/-- Witness for C2: a reader that completes a locked read before the
writer runs at all observes the absent sentinel. -/
theorem snapshot_absent_before_first_publish_check :
    ((⟨1, 0, none, []⟩ : Obs Nat).frame = none ∧
        (⟨1, 0, none, []⟩ : Obs Nat).dets = []) ∧
      ∀ encode : Nat → Bool × List Nat, generate_frames_iter encode none = none :=
  snapshot_absent_before_first_publish ([] : List (Nat × List Detection))
    (fun _ => 1) [1, 1, 1] ⟨1, 0, none, []⟩ (by decide) rfl

/-- C3 (code bug): `capture_video` has no handler around `model(img)`
(`src/main.py` line 122), so a raised inference failure propagates and
terminates the capture loop.  On `c3Env` the model raises on the first
frame while a second frame (`some 2`) is still pending: the loop crashes
with no publish at all instead of skipping the iteration and processing
frame 2 as the claim states. -/
theorem inference_failure_terminates_capture_loop :
    capture_video c3Env = ([], [], CaptureOutcome.crashed "boom")
      ∧ c3Env.reads = [some 1, some 2] :=
  ⟨rfl, rfl⟩

/-- C4: every chunk emitted on `/video_feed` is exactly the boundary
marker and JPEG content-type header, the encoded frame bytes, and a
trailing CRLF, and both variants declare the
`multipart/x-mixed-replace; boundary=frame` content type
(`src/main.py` lines 170-171 and 180; `src/pi_camera.py` lines 85-86 and
124-125). -/
theorem video_feed_chunk_format :
    (∀ (α : Type) (encode : α → Bool × List Nat) (img : α),
        generate_frames_iter encode (some img) =
          some (bytesOf "--frame\r\nContent-Type: image/jpeg\r\n\r\n" ++
            (encode img).2 ++ bytesOf "\r\n"))
    ∧ (∀ buf : List Nat,
        generate_camera_stream_iter (some buf) =
          some (bytesOf "--frame\r\nContent-Type: image/jpeg\r\n\r\n" ++
            buf ++ bytesOf "\r\n"))
    ∧ mainVideoFeedMimetype = "multipart/x-mixed-replace; boundary=frame"
    ∧ piVideoFeedMimetype = "multipart/x-mixed-replace; boundary=frame" :=
  ⟨fun _ _ _ => rfl, fun _ => rfl, rfl, rfl⟩

/-- C5: in both variants, the sequence of frames a session emits follows
the publish order without ever going backwards: the completed-publish
index of a session's successive locked reads is nondecreasing under any
schedule, and each read either precedes the first publish (no frame, so
no chunk) or returns exactly the frame of the `c+1`-st publish. -/
theorem session_frames_nondecreasing {α β : Type}
    (ps : List (α × List Detection)) (snaps : Nat → Nat) (sched : List Nat)
    (r : Nat) (fs : List β) (psnaps : Nat → Nat) (psched : List Nat) (pr : Nat) :
    (((((run (initSys ps snaps) sched).log.filter
          (fun o => o.reader == r)).map Obs.completed).Pairwise (· ≤ ·))
      ∧ ∀ o ∈ (run (initSys ps snaps) sched).log,
          (o.completed = 0 ∧ o.frame = none) ∨
            ∃ c p, o.completed = c + 1 ∧ ps[c]? = some p ∧ o.frame = some p.1)
    ∧ (((((piRun (piInit fs psnaps) psched).log.filter
          (fun o => o.reader == pr)).map PiObs.completed).Pairwise (· ≤ ·))
      ∧ ∀ o ∈ (piRun (piInit fs psnaps) psched).log,
          (o.completed = 0 ∧ o.buf = none) ∨
            ∃ c f, o.completed = c + 1 ∧ fs[c]? = some f ∧ o.buf = some f) := by
  constructor
  · have hinv := inv_run ps (initSys ps snaps) sched (inv_init ps snaps)
    constructor
    · rw [List.pairwise_map]
      exact List.Pairwise.filter _ hinv.hpair
    · intro o ho
      obtain ⟨hf, _, hc⟩ := hinv.hlog o ho
      cases hoc : o.completed with
      | zero =>
        rw [hoc] at hf
        simp only [cellAt] at hf
        exact Or.inl ⟨rfl, hf⟩
      | succ c =>
        rw [hoc] at hf hc
        have hlt : c < ps.length := Nat.lt_of_succ_le hc
        have hget : ps[c]? = some ps[c] := List.getElem?_eq_getElem hlt
        rw [cellAt_get hget] at hf
        exact Or.inr ⟨c, ps[c], rfl, hget, hf⟩
  · have hinv := piInv_run fs (piInit fs psnaps) psched (piInv_init fs psnaps)
    constructor
    · rw [List.pairwise_map]
      exact List.Pairwise.filter _ hinv.hpair
    · intro o ho
      obtain ⟨hb, hc⟩ := hinv.hlog o ho
      cases hoc : o.completed with
      | zero =>
        rw [hoc] at hb
        simp only [piCellAt] at hb
        exact Or.inl ⟨rfl, hb⟩
      | succ c =>
        rw [hoc] at hb hc
        have hlt : c < fs.length := Nat.lt_of_succ_le hc
        have hget : fs[c]? = some fs[c] := List.getElem?_eq_getElem hlt
        rw [piCellAt_get hget] at hb
        exact Or.inr ⟨c, fs[c], rfl, hget, hb⟩

/-- Witness for C5: on a concrete schedule with one publish followed by
one locked read, the read is logged and matches the first publish. -/
theorem session_frames_nondecreasing_check :
    (⟨1, 1, some 5, []⟩ : Obs Nat) ∈
        (run (initSys [((5 : Nat), ([] : List Detection))] (fun _ => 1))
          [0, 0, 0, 0, 1, 1, 1]).log
    ∧ (((⟨1, 1, some 5, []⟩ : Obs Nat).completed = 0 ∧
          (⟨1, 1, some 5, []⟩ : Obs Nat).frame = none) ∨
        ∃ c p, (⟨1, 1, some 5, []⟩ : Obs Nat).completed = c + 1 ∧
          [((5 : Nat), ([] : List Detection))][c]? = some p ∧
          (⟨1, 1, some 5, []⟩ : Obs Nat).frame = some p.1) :=
  ⟨by decide,
    (session_frames_nondecreasing [((5 : Nat), ([] : List Detection))]
      (fun _ => 1) [0, 0, 0, 0, 1, 1, 1] 1 [[(7 : Nat)]] (fun _ => 1)
      [0, 0, 0, 1, 1, 1] 1).1.2 ⟨1, 1, some 5, []⟩ (by decide)⟩

/-- C6: if the capture device fails to open, `capture_video` logs the
error and returns immediately with no publish (`src/main.py` lines
108-112); consequently — the shared cell never receiving a publish —
every locked read under any schedule still sees the absent sentinel
(`/detections` serializes `[]`) and a `generate_frames` iteration emits
no chunk. -/
theorem open_failure_contained {α : Type} (env : CamEnv α)
    (hopen : env.openOk = false) :
    capture_video env = (openFailLog, [], CaptureOutcome.openFailed)
    ∧ (∀ (snaps : Nat → Nat) (sched : List Nat) (o : Obs α),
        o ∈ (run (initSys ([] : List (α × List Detection)) snaps) sched).log →
          o.frame = none ∧ o.dets = [])
    ∧ ∀ encode : α → Bool × List Nat, generate_frames_iter encode none = none := by
  refine ⟨?_, ?_, fun _ => rfl⟩
  · simp [capture_video, hopen]
  · intro snaps sched o ho
    have hinv := inv_run ([] : List (α × List Detection))
      (initSys ([] : List (α × List Detection)) snaps) sched
      (inv_init ([] : List (α × List Detection)) snaps)
    obtain ⟨hf, hd, _⟩ := hinv.hlog o ho
    rw [cellAt_nil] at hf hd
    exact ⟨hf, hd⟩

/-- Witness for C6: a concrete environment whose device does not open. -/
theorem open_failure_contained_check :
    capture_video (⟨false, [], fun _ => Except.ok ⟨[], fun _ => ""⟩,
        fun (i : Nat) _ => i⟩ : CamEnv Nat) =
        (openFailLog, [], CaptureOutcome.openFailed)
    ∧ (∀ (snaps : Nat → Nat) (sched : List Nat) (o : Obs Nat),
        o ∈ (run (initSys ([] : List (Nat × List Detection)) snaps) sched).log →
          o.frame = none ∧ o.dets = [])
    ∧ ∀ encode : Nat → Bool × List Nat, generate_frames_iter encode none = none :=
  open_failure_contained
    (⟨false, [], fun _ => Except.ok ⟨[], fun _ => ""⟩, fun (i : Nat) _ => i⟩ :
      CamEnv Nat) rfl

/-- C7: every detection produced by a capture iteration has the data
model's structure — `bbox` the detector's `(x1, y1, x2, y2)`, confidence
copied from the detector (hence in `[0, 1]` when the detector respects
its contract), integer class id, class name looked up in the detector's
name table — and its center is exactly the midpoint of its bounding box:
`center_x = (x1 + x2) / 2`, `center_y = (y1 + y2) / 2`
(`src/main.py` lines 127-143). -/
theorem detection_center_is_bbox_midpoint {α : Type}
    (infer : α → Except String InferResult) (draw : α → BoxOut → α)
    (reads : List (Option α))
    (hconf : ∀ img res, infer img = Except.ok res →
      ∀ b ∈ res.boxes, 0 ≤ b.conf ∧ b.conf ≤ 1)
    (pub : α × List Detection) (hpub : pub ∈ (capture_loop infer draw reads).1)
    (d : Detection) (hd : d ∈ pub.2) :
    ∃ names b, d = mkDetection names b
      ∧ d.center_x = (d.bbox.1 + d.bbox.2.2.1) / 2
      ∧ d.center_y = (d.bbox.2.1 + d.bbox.2.2.2) / 2
      ∧ 0 ≤ d.confidence ∧ d.confidence ≤ 1
      ∧ d.class_name = names d.class_id := by
  obtain ⟨img, res, hinf, hpe⟩ := capture_loop_mem hpub
  rw [hpe] at hd
  obtain ⟨b, hb, hde⟩ := processBoxes_mem hd
  obtain ⟨hc0, hc1⟩ := hconf img res hinf b hb
  subst hde
  exact ⟨res.names, b, rfl, rfl, rfl, hc0, hc1, rfl⟩

/-- Witness for C7: a concrete detector box `(0, 0, 2, 4)` with
confidence `1/2`, run through one capture iteration. -/
theorem detection_center_is_bbox_midpoint_check :
    ∃ names b,
      mkDetection (fun _ => "person") ⟨0, 0, 2, 4, 1/2, 3⟩ = mkDetection names b
      ∧ (mkDetection (fun _ => "person") ⟨0, 0, 2, 4, 1/2, 3⟩).center_x =
          ((mkDetection (fun _ => "person") ⟨0, 0, 2, 4, 1/2, 3⟩).bbox.1 +
            (mkDetection (fun _ => "person") ⟨0, 0, 2, 4, 1/2, 3⟩).bbox.2.2.1) / 2
      ∧ (mkDetection (fun _ => "person") ⟨0, 0, 2, 4, 1/2, 3⟩).center_y =
          ((mkDetection (fun _ => "person") ⟨0, 0, 2, 4, 1/2, 3⟩).bbox.2.1 +
            (mkDetection (fun _ => "person") ⟨0, 0, 2, 4, 1/2, 3⟩).bbox.2.2.2) / 2
      ∧ 0 ≤ (mkDetection (fun _ => "person") ⟨0, 0, 2, 4, 1/2, 3⟩).confidence
      ∧ (mkDetection (fun _ => "person") ⟨0, 0, 2, 4, 1/2, 3⟩).confidence ≤ 1
      ∧ (mkDetection (fun _ => "person") ⟨0, 0, 2, 4, 1/2, 3⟩).class_name =
          names (mkDetection (fun _ => "person") ⟨0, 0, 2, 4, 1/2, 3⟩).class_id :=
  detection_center_is_bbox_midpoint
    (fun _ => Except.ok ⟨[⟨0, 0, 2, 4, 1/2, 3⟩], fun _ => "person"⟩)
    (fun (i : Nat) _ => i) [some 0]
    (by
      intro img res h b hb
      simp only [Except.ok.injEq] at h
      subst h
      simp only [List.mem_singleton] at hb
      subst hb
      exact ⟨by norm_num, by norm_num⟩)
    ((0 : Nat), [mkDetection (fun _ => "person") ⟨0, 0, 2, 4, 1/2, 3⟩])
    (by simp [capture_loop, processBoxes])
    (mkDetection (fun _ => "person") ⟨0, 0, 2, 4, 1/2, 3⟩)
    (by simp)

/-- C8 (code bug): `generate_frames` discards the success flag of
`cv2.imencode` (`_, buffer = cv2.imencode('.jpg', img)`, `src/main.py`
line 167) and yields the buffer regardless.  With an encoder reporting
failure (`retval = False`) and a garbage buffer, a full well-formed
chunk containing the garbage bytes is still emitted, contradicting the
claim that a failed encoding emits no bytes. -/
theorem encoding_failure_still_emits_chunk :
    (c8Encode 0).1 = false
    ∧ generate_frames_iter c8Encode (some 0) =
        some (bytesOf "--frame\r\nContent-Type: image/jpeg\r\n\r\n" ++
          [1, 2, 3] ++ bytesOf "\r\n") :=
  ⟨rfl, rfl⟩

/-- C9: once any publish has completed, a locked read never again
returns the absent sentinel, in both variants: every logged read taken
with at least one publish completed has a present frame; consequently a
present observation is never followed by an absent one; and at the
semantics level a step either leaves the cell untouched or stores a
present value — the writer only ever stores non-absent frames and
nothing resets the cell (`src/main.py` lines 150-152,
`src/pi_camera.py` lines 56-61). -/
theorem published_cell_never_absent_again {α β : Type}
    (ps : List (α × List Detection)) (snaps : Nat → Nat) (sched : List Nat)
    (fs : List β) (psnaps : Nat → Nat) (psched : List Nat) :
    ((∀ o ∈ (run (initSys ps snaps) sched).log, 1 ≤ o.completed → o.frame ≠ none)
      ∧ ((run (initSys ps snaps) sched).log.Pairwise
          (fun a b => a.frame ≠ none → b.frame ≠ none))
      ∧ ∀ (s : Sys α) (t : Nat),
          (step s t).frame = s.frame ∨ ∃ f, (step s t).frame = some f)
    ∧ ((∀ o ∈ (piRun (piInit fs psnaps) psched).log, 1 ≤ o.completed → o.buf ≠ none)
      ∧ ((piRun (piInit fs psnaps) psched).log.Pairwise
          (fun a b => a.buf ≠ none → b.buf ≠ none))
      ∧ ∀ (s : PiSys β) (t : Nat),
          (piStep s t).buf = s.buf ∨ ∃ b, (piStep s t).buf = some b) := by
  constructor
  · have hinv := inv_run ps (initSys ps snaps) sched (inv_init ps snaps)
    refine ⟨?_, ?_, ?_⟩
    · intro o ho h1
      obtain ⟨hf, _, hc⟩ := hinv.hlog o ho
      cases hoc : o.completed with
      | zero =>
        rw [hoc] at h1
        exact (Nat.not_succ_le_zero 0 h1).elim
      | succ c =>
        rw [hoc] at hf hc
        have hlt : c < ps.length := Nat.lt_of_succ_le hc
        have hget : ps[c]? = some ps[c] := List.getElem?_eq_getElem hlt
        rw [cellAt_get hget] at hf
        rw [hf]
        simp
    · refine List.Pairwise.imp_of_mem ?_ hinv.hpair
      intro a b ha hb hab hafr
      obtain ⟨haf, _, _⟩ := hinv.hlog a ha
      obtain ⟨hbf, _, hbc⟩ := hinv.hlog b hb
      cases hac : a.completed with
      | zero =>
        rw [hac] at haf
        simp only [cellAt] at haf
        exact absurd haf hafr
      | succ c =>
        rw [hac] at hab
        cases hbcc : b.completed with
        | zero =>
          rw [hbcc] at hab
          omega
        | succ cb =>
          rw [hbcc] at hbf hbc
          have hlt : cb < ps.length := Nat.lt_of_succ_le hbc
          have hget : ps[cb]? = some ps[cb] := List.getElem?_eq_getElem hlt
          rw [cellAt_get hget] at hbf
          rw [hbf]
          simp
    · intro s t
      rcases hp : s.progs t with _ | ⟨a, rest⟩
      · rw [step_empty hp]
        exact Or.inl rfl
      · cases a with
        | acq =>
          by_cases hl : s.lock = none
          · rw [step_acq_free hp hl]
            exact Or.inl rfl
          · rw [step_acq_blocked hp hl]
            exact Or.inl rfl
        | rel =>
          rw [step_rel hp]
          exact Or.inl rfl
        | setFrame f =>
          rw [step_setFrame hp]
          exact Or.inr ⟨f, rfl⟩
        | setDets ds =>
          rw [step_setDets hp]
          exact Or.inl rfl
        | readPair =>
          rw [step_readPair hp]
          exact Or.inl rfl
  · have hinv := piInv_run fs (piInit fs psnaps) psched (piInv_init fs psnaps)
    refine ⟨?_, ?_, ?_⟩
    · intro o ho h1
      obtain ⟨hb, hc⟩ := hinv.hlog o ho
      cases hoc : o.completed with
      | zero =>
        rw [hoc] at h1
        exact (Nat.not_succ_le_zero 0 h1).elim
      | succ c =>
        rw [hoc] at hb hc
        have hlt : c < fs.length := Nat.lt_of_succ_le hc
        have hget : fs[c]? = some fs[c] := List.getElem?_eq_getElem hlt
        rw [piCellAt_get hget] at hb
        rw [hb]
        simp
    · refine List.Pairwise.imp_of_mem ?_ hinv.hpair
      intro a b ha hb hab hafr
      obtain ⟨haf, _⟩ := hinv.hlog a ha
      obtain ⟨hbf, hbc⟩ := hinv.hlog b hb
      cases hac : a.completed with
      | zero =>
        rw [hac] at haf
        simp only [piCellAt] at haf
        exact absurd haf hafr
      | succ c =>
        rw [hac] at hab
        cases hbcc : b.completed with
        | zero =>
          rw [hbcc] at hab
          omega
        | succ cb =>
          rw [hbcc] at hbf hbc
          have hlt : cb < fs.length := Nat.lt_of_succ_le hbc
          have hget : fs[cb]? = some fs[cb] := List.getElem?_eq_getElem hlt
          rw [piCellAt_get hget] at hbf
          rw [hbf]
          simp
    · intro s t
      rcases hp : s.progs t with _ | ⟨a, rest⟩
      · rw [piStep_empty hp]
        exact Or.inl rfl
      · cases a with
        | acq =>
          by_cases hl : s.lock = none
          · rw [piStep_acq_free hp hl]
            exact Or.inl rfl
          · rw [piStep_acq_blocked hp hl]
            exact Or.inl rfl
        | rel =>
          rw [piStep_rel hp]
          exact Or.inl rfl
        | setBuf b =>
          rw [piStep_setBuf hp]
          exact Or.inr ⟨b, rfl⟩
        | readBuf =>
          rw [piStep_readBuf hp]
          exact Or.inl rfl

/-- Witness for C9: a concrete pi run with one completed publish whose
subsequent locked read the theorem shows to be present. -/
theorem published_cell_never_absent_again_check :
    (piRun (piInit [[(7 : Nat)]] (fun _ => 1)) [0, 0, 0, 1, 1, 1]).log =
        [⟨1, 1, some [7]⟩]
    ∧ (⟨1, 1, some [7]⟩ : PiObs (List Nat)).buf ≠ none :=
  ⟨by decide,
    (published_cell_never_absent_again ([] : List (Nat × List Detection))
      (fun _ => 0) [] [[(7 : Nat)]] (fun _ => 1) [0, 0, 0, 1, 1, 1]).2.1
      ⟨1, 1, some [7]⟩ (by decide) (by decide)⟩

/-- C10: a successful capture iteration on which the detector reports no
boxes still publishes: the freshly captured frame is published paired
with the empty detection list (so `/detections` then serializes `[]`),
the loop goes on with the remaining reads, and a stream iteration seeing
the new frame emits its chunk (`src/main.py` lines 117-152). -/
theorem publish_on_empty_detector_output {α : Type}
    (infer : α → Except String InferResult) (draw : α → BoxOut → α)
    (img : α) (rest : List (Option α)) (res : InferResult)
    (hinf : infer img = Except.ok res) (hboxes : res.boxes = []) :
    (capture_loop infer draw (some img :: rest)).1 =
        (img, ([] : List Detection)) :: (capture_loop infer draw rest).1
    ∧ (capture_loop infer draw (some img :: rest)).2 =
        (capture_loop infer draw rest).2
    ∧ ∀ encode : α → Bool × List Nat,
        generate_frames_iter encode (some img) =
          some (bytesOf "--frame\r\nContent-Type: image/jpeg\r\n\r\n" ++
            (encode img).2 ++ bytesOf "\r\n") := by
  refine ⟨?_, ?_, fun _ => rfl⟩
  · simp [capture_loop, hinf, hboxes, processBoxes]
  · simp [capture_loop, hinf]

/-- Witness for C10: a detector returning no boxes on frame `9`; the
iteration publishes `(9, [])`. -/
theorem publish_on_empty_detector_output_check :
    (capture_loop (fun _ => Except.ok ⟨[], fun _ => ""⟩)
        (fun (i : Nat) _ => i) (some 9 :: [])).1 =
        ((9 : Nat), ([] : List Detection)) ::
          (capture_loop (fun _ => Except.ok ⟨[], fun _ => ""⟩)
            (fun (i : Nat) _ => i) []).1
    ∧ (capture_loop (fun _ => Except.ok ⟨[], fun _ => ""⟩)
        (fun (i : Nat) _ => i) (some 9 :: [])).2 =
        (capture_loop (fun _ => Except.ok ⟨[], fun _ => ""⟩)
          (fun (i : Nat) _ => i) []).2
    ∧ ∀ encode : Nat → Bool × List Nat,
        generate_frames_iter encode (some 9) =
          some (bytesOf "--frame\r\nContent-Type: image/jpeg\r\n\r\n" ++
            (encode 9).2 ++ bytesOf "\r\n") :=
  publish_on_empty_detector_output (fun _ => Except.ok ⟨[], fun _ => ""⟩)
    (fun (i : Nat) _ => i) 9 [] ⟨[], fun _ => ""⟩ rfl rfl

end Vision
